import Mathlib

/-!
# Verification of the cargo-status concurrency/display core

A shallow embedding, in Lean 4, of the parts of the `cargo-status`
repository that the specification talks about:

* the text utilities of `src/main.rs` (`strip_ansi_escapes`,
  `parse_test_results`) and of `src/tools/status_check.rs`
  (`parse_test_results`),
* the check runner `StatusCheck::run` of both `src/tools/status_check.rs`
  and `src/main.rs`,
* the availability cache of `src/cache.rs`,
* the interactive display state machine of `src/display.rs`,
* the aggregation logic of `main` in `src/main.rs`.

Strings are modelled as `List Char` (Rust byte indices coincide with
character indices on the ASCII data handled here); `Instant`/`Duration`
values are modelled as natural numbers; subprocess interaction is
modelled by explicit environment records carrying the outcomes the
operating system would provide.
-/

set_option autoImplicit false

namespace CargoStatus

/-! ## List-of-characters utilities mirroring the Rust `str` methods -/

/-- Substring test: does `pat` occur (contiguously) in `s`?
Mirrors Rust `str::contains` for literal patterns. -/
def containsSub (pat : List Char) : List Char → Bool
  | [] => pat.isEmpty
  | c :: rest => pat.isPrefixOf (c :: rest) || containsSub pat rest

/-- Index of the first occurrence of `pat` in `s`, mirroring Rust
`str::find` for literal patterns (byte index = char index on ASCII). -/
def findIdxSub (pat : List Char) : List Char → Option Nat
  | [] => if pat.isEmpty then some 0 else none
  | c :: rest =>
    if pat.isPrefixOf (c :: rest) then some 0
    else (findIdxSub pat rest).map (· + 1)

/-- Helper for `countMatches`: structural recursion over a step budget
(one budget unit per consumed character) so that the definition reduces
in the kernel; `countMatches` supplies a sufficient budget. -/
def countMatchesFuel (pat : List Char) : Nat → List Char → Nat
  | 0, _ => 0
  | _ + 1, [] => 0
  | fuel + 1, c :: rest =>
    if pat.isPrefixOf (c :: rest) then
      1 + countMatchesFuel pat fuel (List.drop (pat.length - 1) rest)
    else
      countMatchesFuel pat fuel rest

/-- Number of non-overlapping occurrences of `pat` in `s`, scanning left
to right: Rust `str::matches(pat).count()`.  Every step consumes at least
one character, so a budget of `s.length` is sufficient.  All patterns
used by the program are non-empty. -/
def countMatches (pat : List Char) (s : List Char) : Nat :=
  countMatchesFuel pat s.length s

/-- Index (from the left) of the rightmost decimal digit of `l`, mirroring
Rust `str[..].rfind(char::is_numeric)` on ASCII text (where `is_numeric`
agrees with `is_ascii_digit`). -/
def lastDigitIdx (l : List Char) : Option Nat :=
  match l with
  | [] => none
  | c :: rest =>
    match lastDigitIdx rest with
    | some i => some (i + 1)
    | none => if c.isDigit then some 0 else none

/-- Index (from the left) of the rightmost occurrence of character `c`,
mirroring Rust `str::rfind(c)`. -/
def lastCharIdx (c : Char) (l : List Char) : Option Nat :=
  match l with
  | [] => none
  | d :: rest =>
    match lastCharIdx c rest with
    | some i => some (i + 1)
    | none => if d = c then some 0 else none

/-- Rust `str::trim` (whitespace stripped from both ends). -/
def trimChars (l : List Char) : List Char :=
  ((l.dropWhile Char.isWhitespace).reverse.dropWhile Char.isWhitespace).reverse

/-- The value of a non-empty all-digit string of ASCII digits. -/
def digitsVal? (l : List Char) : Option Nat :=
  if l ≠ [] && l.all Char.isDigit then
    some (l.foldl (fun a c => a * 10 + (c.toNat - 48)) 0)
  else none

/-- Rust `str::parse::<usize>()`: an optional leading `+` followed by at
least one ASCII digit.  Overflow is not modelled (the counts handled by the
program are tiny). -/
def parseUsize? (l : List Char) : Option Nat :=
  match l with
  | '+' :: rest => digitsVal? rest
  | _ => digitsVal? l

/-- `.trim().parse::<usize>().unwrap_or(0)` as used by
`parse_test_results` in `src/main.rs`. -/
def parseTrimmedOr0 (l : List Char) : Nat :=
  (parseUsize? (trimChars l)).getD 0

/-- Split at every newline, keeping empty segments (helper for
`rustLines`). -/
def splitNl (s : List Char) : List (List Char) :=
  match s with
  | [] => [[]]
  | c :: rest =>
    if c = '\n' then [] :: splitNl rest
    else
      match splitNl rest with
      | [] => [[c]]
      | l :: ls => (c :: l) :: ls

/-- Drop one trailing carriage return, as Rust `str::lines` does for
`\r\n` endings. -/
def dropTrailingCr (l : List Char) : List Char :=
  match l.reverse with
  | '\r' :: rest => rest.reverse
  | _ => l

/-- Rust `str::lines`: split at `\n` (also eating a preceding `\r`); a
final trailing newline does not produce an empty last line, and the empty
string has no lines. -/
def rustLines (s : List Char) : List (List Char) :=
  let segs := splitNl s
  let segs := if segs.getLast? = some [] then segs.dropLast else segs
  segs.map dropTrailingCr

/-- Helper for `splitWs`: accumulate the current (reversed) word. -/
def splitWsAux : List Char → List Char → List (List Char)
  | [], acc => if acc.isEmpty then [] else [acc.reverse]
  | c :: rest, acc =>
    if c.isWhitespace then
      if acc.isEmpty then splitWsAux rest []
      else acc.reverse :: splitWsAux rest []
    else splitWsAux rest (c :: acc)

/-- Rust `str::split_whitespace`: maximal runs of non-whitespace. -/
def splitWs (l : List Char) : List (List Char) :=
  splitWsAux l []

/-! ## ANSI stripping (`strip_ansi_escapes`, src/main.rs lines 608-629)

The Rust function walks the characters with a peekable iterator.  On
`ESC` it consumes the next character; when that character is `[` it then
consumes everything up to and including the next `m`.  Note that the
character after a lone `ESC` is consumed (dropped) even when it is not
`[`.  The Boolean mode argument of `stripAnsiGo` is `true` while the
function is inside a `[`-sequence, skipping until `m`. -/

def stripAnsiGo : Bool → List Char → List Char
  | _, [] => []
  | true, c :: rest =>
    if c = 'm' then stripAnsiGo false rest else stripAnsiGo true rest
  | false, c :: rest =>
    if c = '\x1b' then
      match rest with
      | [] => []
      | d :: rest2 =>
        if d = '[' then stripAnsiGo true rest2 else stripAnsiGo false rest2
    else c :: stripAnsiGo false rest

/-- `strip_ansi_escapes` from src/main.rs. -/
def strip_ansi_escapes (s : List Char) : List Char :=
  stripAnsiGo false s

/-- The specification's description of ANSI stripping, written from the
spec's words for the refinement comparison: remove exactly the
`ESC [ ... m` control sequences (everything from an `ESC [` up to and
including the terminating `m`) and leave every other character of the
input untouched — in particular a lone `ESC`, an `ESC` not followed by
`[`, and an unterminated `ESC [` are left in place.  The Boolean mode is
`true` while inside a (known-terminated) sequence, skipping up to and
including its `m`. -/
def stripSpecGo : Bool → List Char → List Char
  | _, [] => []
  | true, c :: rest =>
    if c = 'm' then stripSpecGo false rest else stripSpecGo true rest
  | false, c :: rest =>
    if c = '\x1b' then
      match rest with
      | [] => ['\x1b']
      | d :: rest2 =>
        if d = '[' then
          if rest2.contains 'm' then stripSpecGo true rest2
          else '\x1b' :: '[' :: stripSpecGo false rest2
        else '\x1b' :: stripSpecGo false (d :: rest2)
    else c :: stripSpecGo false rest

/-- Spec-side ANSI stripping (see `stripSpecGo`). -/
def stripSpec (s : List Char) : List Char :=
  stripSpecGo false s

/-- Inputs in which every `ESC` opens a well-formed, `m`-terminated
`ESC [ ... m` sequence.  The Boolean mode is `true` while skipping a
sequence body up to its `m`. -/
def wfAnsiGo : Bool → List Char → Bool
  | false, [] => true
  | true, [] => false
  | true, c :: rest =>
    if c = 'm' then wfAnsiGo false rest else wfAnsiGo true rest
  | false, c :: rest =>
    if c = '\x1b' then
      match rest with
      | [] => false
      | d :: rest2 =>
        if d = '[' then rest2.contains 'm' && wfAnsiGo true rest2 else false
    else wfAnsiGo false rest

/-- Well-formedness of ANSI-escaped text (see `wfAnsiGo`). -/
def wfAnsi (s : List Char) : Bool :=
  wfAnsiGo false s

/-! ## The two test-result parsers -/

/-- Fold of the indexed word loop of `parse_test_results` in
src/tools/status_check.rs: for every adjacent pair `(a, b)` of
whitespace-separated words, a word `b` equal to `"passed;"` (resp.
`"failed;"`) whose predecessor `a` parses as an integer updates the
`passed` (resp. `failed`) accumulator; the last update wins. -/
def scanPassFail : List (List Char) → Nat × Nat → Nat × Nat
  | [], acc => acc
  | [_], acc => acc
  | a :: b :: rest, (p, f) =>
    let acc :=
      if b = "passed;".data then
        match parseUsize? a with
        | some n => (n, f)
        | none => (p, f)
      else if b = "failed;".data then
        match parseUsize? a with
        | some n => (p, n)
        | none => (p, f)
      else (p, f)
    scanPassFail (b :: rest) acc

namespace Tools

/-- `parse_test_results` from src/tools/status_check.rs (lines 222-244):
find the first line containing `"test result:"`, split it on whitespace,
and take the integers whose following word is exactly `"passed;"` /
`"failed;"`. -/
def parse_test_results (output : List Char) : Nat × Nat :=
  match (rustLines output).find? (fun l => containsSub "test result:".data l) with
  | some line => scanPassFail (splitWs line) (0, 0)
  | none => (0, 0)

end Tools

/-- The number extracted by `parse_test_results` in src/main.rs for a
pattern such as `" passed"`: locate the first occurrence of `pat`, then
`rfind(char::is_numeric)` on the text before it, and parse the slice from
that (single rightmost) digit up to `pat`. -/
def numBefore (line : List Char) (pat : List Char) : Nat :=
  match findIdxSub pat line with
  | none => 0
  | some idx =>
    let before := line.take idx
    match lastDigitIdx before with
    | none => 0
    | some start => parseTrimmedOr0 (before.drop start)

namespace MainBin

/-- `parse_test_results` from src/main.rs (lines 634-705), trying the
three dialects in order: a `"test result:"` line, a nextest
`Summary`/`tests run` line (ANSI-stripped, number after the last colon
before `"passed"`, failures recounted from literal `"FAIL ["`), and the
literal `PASS [`/`FAIL [` fallback. -/
def parse_test_results (output : List Char) : Nat × Nat :=
  let ls := rustLines output
  match ls.find? (fun l => containsSub "test result:".data l) with
  | some line => (numBefore line " passed".data, numBefore line " failed".data)
  | none =>
    match ls.find? (fun l =>
        containsSub "Summary".data l && containsSub "tests run".data l) with
    | some line =>
      let clean := strip_ansi_escapes line
      let passed :=
        match findIdxSub "passed".data clean with
        | some idx =>
          let before := clean.take idx
          match lastCharIdx ':' before with
          | some colon => parseTrimmedOr0 (before.drop (colon + 1))
          | none => 0
        | none => 0
      let failed := countMatches "FAIL [".data output
      (passed, failed)
    | none =>
      if containsSub "PASS [".data output || containsSub "FAIL [".data output then
        (countMatches "PASS [".data output, countMatches "FAIL [".data output)
      else (0, 0)

end MainBin

/-! ## Display data model (src/display.rs)

`Instant` and `Duration` are modelled as natural numbers. -/

/-- `CheckStatus` from src/display.rs lines 24-46. -/
inductive CheckStatus where
  | Pending : CheckStatus
  | Running (start_time : Nat) : CheckStatus
  | Success (warnings : Nat) (duration : Nat) : CheckStatus
  | Warning (warnings : Nat) (duration : Nat) : CheckStatus
  | Error (errors : Nat) (warnings : Nat) (duration : Nat) : CheckStatus
  | Failed (reason : String) (duration : Nat) : CheckStatus
deriving DecidableEq, Repr

/-- The four terminal variants (Success/Warning/Error/Failed): exactly the
variants for which `handle_check_completed` produces a line instead of
returning early. -/
def CheckStatus.isTerminal : CheckStatus → Bool
  | .Success _ _ => true
  | .Warning _ _ => true
  | .Error _ _ _ => true
  | .Failed _ _ => true
  | .Pending => false
  | .Running _ => false

/-- `StatusEvent` from src/display.rs lines 50-55. -/
inductive StatusEvent where
  | CheckStarted (name : String) : StatusEvent
  | CheckProgress (name : String) (message : String) : StatusEvent
  | CheckCompleted (name : String) (status : CheckStatus) : StatusEvent
  | AllCompleted : StatusEvent
deriving DecidableEq, Repr

/-- The check name an event addresses, if any. -/
def eventName? : StatusEvent → Option String
  | .CheckStarted n => some n
  | .CheckProgress n _ => some n
  | .CheckCompleted n _ => some n
  | .AllCompleted => none

/-- `CheckStateMap`: check-name → (row index, status, start instant).
The Rust `HashMap` is modelled by its lookup function. -/
def StateMap : Type := String → Option (Nat × CheckStatus × Nat)

/-- `HashMap::insert` (overwrites any existing entry for the key). -/
def StateMap.insert (m : StateMap) (k : String) (v : Nat × CheckStatus × Nat) : StateMap :=
  fun k' => if k' = k then some v else m k'

/-- The empty map the display starts from. -/
def StateMap.empty : StateMap := fun _ => none

/-- Row of a check in the state map. -/
def rowOf (m : StateMap) (n : String) : Option Nat :=
  (m n).map (fun x => x.1)

/-- Stored status of a check in the state map. -/
def statusOf (m : StateMap) (n : String) : Option CheckStatus :=
  (m n).map (fun x => x.2.1)

/-- Does the map hold a terminal status for `n`? -/
def terminalAt (m : StateMap) (n : String) : Bool :=
  match m n with
  | some (_, st, _) => st.isTerminal
  | none => false

/-- The insertion loop of `InteractiveDisplay::initialize`
(src/display.rs lines 151-158): row = base_row + index with
base_row = 2, status `Pending`, start instant `now`. -/
def initFrom (states : StateMap) (names : List String) (i : Nat) (now : Nat) : StateMap :=
  match names with
  | [] => states
  | n :: rest =>
    initFrom (states.insert n (2 + i, CheckStatus.Pending, now)) rest (i + 1) now

/-- `InteractiveDisplay::initialize` restricted to its state effect. -/
def initDisplay (names : List String) (now : Nat) : StateMap :=
  initFrom StateMap.empty names 0 now

/-!
Each handler returns the new state map together with the row redraws it
performs, as `(name, row)` pairs; the rendered text (spinner glyphs,
colors, summaries) is presentation-only and not modelled.
-/

/-- `InteractiveDisplay::handle_check_started` (src/display.rs 313-331):
for a known name, overwrite its entry with `Running` (fresh start
instant, same row) and redraw that row; unknown names are ignored. -/
def handle_check_started (states : StateMap) (name : String) (now : Nat) :
    StateMap × List (String × Nat) :=
  match states name with
  | some (row, _, _) =>
    (states.insert name (row, CheckStatus.Running now, now), [(name, row)])
  | none => (states, [])

/-- `InteractiveDisplay::handle_check_progress` (src/display.rs 334-350):
redraw the row of a known name; the state map is not mutated. -/
def handle_check_progress (states : StateMap) (name : String) :
    StateMap × List (String × Nat) :=
  match states name with
  | some (row, _, _) => (states, [(name, row)])
  | none => (states, [])

/-- `InteractiveDisplay::handle_check_completed` (src/display.rs 353-414):
for a known name and a terminal status, store the status (same row, same
start instant) and redraw; a non-terminal status hits the catch-all match
arm and returns without mutating or drawing. -/
def handle_check_completed (states : StateMap) (name : String) (status : CheckStatus) :
    StateMap × List (String × Nat) :=
  match states name with
  | some (row, _, start_time) =>
    if status.isTerminal then
      (states.insert name (row, status, start_time), [(name, row)])
    else (states, [])
  | none => (states, [])

/-- One iteration of the interactive event loop
(`InteractiveDisplay::run`, src/display.rs 229-246); `AllCompleted` only
stops the loop and prints the summary, leaving the state map unchanged. -/
def stepEvent (states : StateMap) (e : StatusEvent) (now : Nat) :
    StateMap × List (String × Nat) :=
  match e with
  | .CheckStarted name => handle_check_started states name now
  | .CheckProgress name _ => handle_check_progress states name
  | .CheckCompleted name status => handle_check_completed states name status
  | .AllCompleted => (states, [])

/-- Deliver a timestamped event sequence, collecting all row redraws. -/
def runEventsTrace (states : StateMap) :
    List (StatusEvent × Nat) → StateMap × List (String × Nat)
  | [] => (states, [])
  | (e, t) :: rest =>
    let md := stepEvent states e t
    let md' := runEventsTrace md.1 rest
    (md'.1, md.2 ++ md'.2)

/-! ## Check runner embedding

Two `StatusCheck::run` implementations exist: the library one in
src/tools/status_check.rs and a private copy in src/main.rs (the one the
binary actually executes).  Subprocess interaction is modelled by
environment records holding the outcomes the operating system would
deliver. -/

/-- The fields shared by the two `StatusCheck` structs
(src/tools/status_check.rs 15-21, src/main.rs 188-193); the optional
event sender of the tools version only mirrors start/progress/result and
is not modelled. -/
structure StatusCheck where
  name : String
  command : List String
  warning_patterns : List String
  verbose : Bool
deriving DecidableEq, Repr

/-- The outcome the OS provides for one successfully spawned child
process. -/
structure ProcOutput where
  exitSuccess : Bool
  stdout : String
  stderr : String
deriving DecidableEq, Repr

/-- A child-process invocation actually executed: program, arguments, and
whether its output was captured (`Stdio::piped`) rather than passed
through to the terminal (`Stdio::inherit`). -/
structure Invocation where
  program : String
  args : List String
  capture : Bool
deriving DecidableEq, Repr

/-- The argument-construction logic shared verbatim by the two
`StatusCheck::run` implementations (src/tools/status_check.rs 74-109 and
src/main.rs 240-282): cargo subcommands other than `fmt` get
`--color=always` injected; `nextest` keeps its own arguments (minus any
caller-supplied `--color=always`) and then gets output-suppression flags
in quiet mode or `--color=always` in verbose mode; everything else passes
`command[1..]` through unchanged. -/
def buildArgs (quiet : Bool) (command : List String) : List String :=
  match command with
  | "cargo" :: sub :: rest =>
    if sub = "nextest" then
      sub :: (rest.filter (fun a => a ≠ "--color=always")
        ++ (if quiet then ["--status-level", "none", "--cargo-quiet"]
            else ["--color=always"]))
    else if sub ≠ "fmt" then sub :: "--color=always" :: rest
    else sub :: rest
  | _ :: rest => rest
  | [] => []

/-- Warning metric: the summed occurrence counts of every warning
pattern over the combined output (src/tools/status_check.rs 180-184,
src/main.rs 352-356). -/
def countWarnings (patterns : List String) (s : List Char) : Nat :=
  (patterns.map (fun p => countMatches p.data s)).sum

/-- Error metric: occurrences of the two error markers `error:` and
`error[` (src/tools/status_check.rs 186-187, src/main.rs 359-360). -/
def countErrors (s : List Char) : Nat :=
  countMatches "error:".data s + countMatches "error[".data s

/-- The status classification of `StatusCheck::run`
(src/tools/status_check.rs 196-209). -/
def classify (success : Bool) (errors warnings test_failed duration : Nat) : CheckStatus :=
  if success = false ∨ 0 < errors ∨ 0 < test_failed then
    CheckStatus.Error (errors + test_failed) warnings duration
  else if 0 < warnings then CheckStatus.Warning warnings duration
  else CheckStatus.Success 0 duration

/-- Environment for one `StatusCheck::run` call in
src/tools/status_check.rs: the parsed result of the
`ps aux | grep -c` process-count guard (`none` when any step of
that pipeline fails, in which case the guard is skipped), the outcome of
spawning the check's command, and the measured elapsed duration. -/
structure ToolsEnv where
  cargoCount : Option Nat
  spawn : Except String ProcOutput
  duration : Nat

/-- The safety-guard condition (src/tools/status_check.rs 120-125):
all pipeline steps succeeded and the count exceeds 50. -/
def guardTrips (env : ToolsEnv) : Bool :=
  match env.cargoCount with
  | some count => 50 < count
  | none => false

/-- Combined captured output: lossily decoded stdout followed by stderr
(src/tools/status_check.rs 158-159, src/main.rs 305-306). -/
def combinedOutput (out : ProcOutput) : List Char :=
  out.stdout.data ++ out.stderr.data

namespace Tools

/-- The test-failure metric of the tools runner: only the check named
`Test` consults the test-result parser
(src/tools/status_check.rs 189-193). -/
def testFailedOf (check : StatusCheck) (out : ProcOutput) : Nat :=
  if check.name = "Test" then (parse_test_results (combinedOutput out)).2 else 0

/-- `StatusCheck::run` (src/tools/status_check.rs 63-218).  `none` models
the panic on the unguarded `self.command[0]` for an empty command vector.
Otherwise: guard trip ⇒ `Failed` without executing; spawn failure ⇒
`Failed`; else one captured execution whose combined output is scanned
for warning/error markers (and, for the check named `Test`, test
failures) and classified.  In verbose mode the captured output is
re-printed afterwards — the command is still executed exactly once. -/
def run (check : StatusCheck) (env : ToolsEnv) :
    Option (CheckStatus × List Invocation) :=
  match check.command with
  | [] => none
  | prog :: _ =>
    let quiet := !check.verbose
    let args := buildArgs quiet check.command
    some <|
      if guardTrips env then
        (CheckStatus.Failed
          ("Too many cargo processes detected (" ++ toString (env.cargoCount.getD 0)
            ++ "), aborting to prevent system overload") env.duration, [])
      else
        match env.spawn with
        | Except.error e =>
          (CheckStatus.Failed ("Failed to run command: " ++ e) env.duration, [])
        | Except.ok out =>
          (classify out.exitSuccess (countErrors (combinedOutput out))
              (countWarnings check.warning_patterns (combinedOutput out))
              (testFailedOf check out) env.duration,
            [⟨prog, args, true⟩])

end Tools

/-- `CheckResult` from src/main.rs lines 198-207. -/
structure CheckResult where
  name : String
  success : Bool
  output : String
  warnings : Nat
  errors : Nat
  test_failed : Nat
  test_passed : Nat
deriving DecidableEq, Repr

/-- Environment for one `StatusCheck::run` call in src/main.rs: the
outcome of the first spawn (the captured run in quiet mode; the
stdio-inherited run in verbose mode) and of the second,
metrics-capturing spawn (consulted in verbose mode only). -/
structure MainEnv where
  spawn1 : Except String ProcOutput
  spawn2 : Except String ProcOutput

namespace MainBin

/-- `StatusCheck::parse_output` (src/main.rs 351-378). -/
def parse_output (check : StatusCheck) (combined_output : List Char) (success : Bool) :
    CheckResult :=
  let pf := if check.name = "Test" then parse_test_results combined_output else (0, 0)
  { name := check.name
    success := success
    output := String.mk combined_output
    warnings := countWarnings check.warning_patterns combined_output
    errors := countErrors combined_output
    test_failed := pf.2
    test_passed := pf.1 }

/-- The `CheckResult` built on a spawn failure (src/main.rs 293-302 and
338-346). -/
def spawnFailResult (check : StatusCheck) (e : String) : CheckResult :=
  { name := check.name
    success := false
    output := "Failed to run command: " ++ e
    warnings := 0
    errors := 1
    test_failed := 0
    test_passed := 0 }

/-- `StatusCheck::run` (src/main.rs 235-349).  `none` models the panic on
`self.command[0]` for an empty command vector.  Quiet mode: one captured
execution.  Verbose mode: one execution with inherited stdio (live
passthrough, output not capturable) followed by a second, identical
captured invocation purely for metrics; when that second spawn fails the
code falls back to empty captured output and the first run's exit
status. -/
def run (check : StatusCheck) (env : MainEnv) :
    Option (CheckResult × List Invocation) :=
  match check.command with
  | [] => none
  | prog :: _ =>
    let quiet := !check.verbose
    let args := buildArgs quiet check.command
    some <|
      if quiet then
        match env.spawn1 with
        | Except.error e => (spawnFailResult check e, [])
        | Except.ok out =>
          (parse_output check (out.stdout.data ++ out.stderr.data) out.exitSuccess,
            [⟨prog, args, true⟩])
      else
        match env.spawn1 with
        | Except.error e => (spawnFailResult check e, [])
        | Except.ok out1 =>
          match env.spawn2 with
          | Except.ok m =>
            (parse_output check (m.stdout.data ++ m.stderr.data) out1.exitSuccess,
              [⟨prog, args, false⟩, ⟨prog, args, true⟩])
          | Except.error _ =>
            (parse_output check [] out1.exitSuccess,
              [⟨prog, args, false⟩])

/-- The aggregate-success computation of `main` (src/main.rs
1096-1097): the optional fmt result and every other result must carry
`success = true` (the exit-status flag — warnings do not affect it). -/
def all_successful (fmt_result : Option CheckResult) (results : List CheckResult) : Bool :=
  (match fmt_result with
   | none => true
   | some r => r.success) && results.all (fun r => r.success)

/-- The process exit code selected by `main` (src/main.rs 1099-1106):
`exit(1)` when some check failed, normal return (exit code 0)
otherwise. -/
def main_exit_code (fmt_result : Option CheckResult) (results : List CheckResult) : Nat :=
  if all_successful fmt_result results then 0 else 1

/-- The terminal `CheckStatus` a `CheckResult`'s metrics correspond to
under the runner classification (src/tools/status_check.rs 196-209).
src/main.rs never materializes a `CheckStatus` for its results; this
mapping is the bridge for the spec's "terminal status" language. -/
def statusOfResult (r : CheckResult) (duration : Nat) : CheckStatus :=
  classify r.success r.errors r.warnings r.test_failed duration

end MainBin

/-! ### Status-shape predicates -/

def CheckStatus.isFailed : CheckStatus → Bool
  | .Failed _ _ => true
  | _ => false

def CheckStatus.isError : CheckStatus → Bool
  | .Error _ _ _ => true
  | _ => false

def CheckStatus.isWarning : CheckStatus → Bool
  | .Warning _ _ => true
  | _ => false

def CheckStatus.isSuccess : CheckStatus → Bool
  | .Success _ _ => true
  | _ => false

def CheckStatus.isErrorOrFailed (st : CheckStatus) : Bool :=
  st.isError || st.isFailed

def CheckStatus.isSuccessOrWarning (st : CheckStatus) : Bool :=
  st.isSuccess || st.isWarning

/-! ## Availability cache (src/cache.rs)

Timestamps (`Instant`) are natural numbers; `elapsed` is saturating
subtraction, exactly like `Instant::elapsed`. -/

/-- `Cache<T>` (src/cache.rs 12-22): entry map of value and insertion
timestamp, plus the TTL (in the same time unit as the timestamps). -/
structure Cache (T : Type) where
  entries : String → Option (T × Nat)
  ttl : Nat

/-- `Cache::new` (src/cache.rs 26-31). -/
def Cache.new (T : Type) (ttl_seconds : Nat) : Cache T :=
  ⟨fun _ => none, ttl_seconds⟩

/-- `Cache::get` (src/cache.rs 34-47): a live entry (elapsed < ttl) is
returned and the cache left untouched; an expired entry is removed and
`none` returned.  The second component is the resulting cache. -/
def Cache.get {T : Type} (c : Cache T) (key : String) (now : Nat) : Option T × Cache T :=
  match c.entries key with
  | some (v, ts) =>
    if now - ts < c.ttl then (some v, c)
    else (none, ⟨fun k => if k = key then none else c.entries k, c.ttl⟩)
  | none => (none, c)

/-- `Cache::insert` (src/cache.rs 50-59): overwrite any existing entry
with a fresh timestamp. -/
def Cache.insert {T : Type} (c : Cache T) (key : String) (value : T) (now : Nat) : Cache T :=
  ⟨fun k => if k = key then some (value, now) else c.entries k, c.ttl⟩

/-- `Cache::clear` (src/cache.rs 62-65). -/
def Cache.clear {T : Type} (c : Cache T) : Cache T :=
  ⟨fun _ => none, c.ttl⟩

/-- `Cache::prune` (src/cache.rs 68-73): retain exactly the live
entries. -/
def Cache.prune {T : Type} (c : Cache T) (now : Nat) : Cache T :=
  ⟨fun k =>
    match c.entries k with
    | some (v, ts) => if now - ts < c.ttl then some (v, ts) else none
    | none => none,
   c.ttl⟩

/-- `has_tool_cached` (src/cache.rs 82-92), the spec's `get_or_compute`:
consult the TTL cache under key `"tool_" ++ tool_name`; on a hit return
the cached value, otherwise invoke the probe, store its result with a
fresh timestamp and return it.  The probe is modelled by the Boolean it
would return; the third component counts its invocations. -/
def has_tool_cached (c : Cache Bool) (tool_name : String) (probe : Bool) (now : Nat) :
    Bool × Cache Bool × Nat :=
  let key := "tool_" ++ tool_name
  match Cache.get c key now with
  | (some cached, c') => (cached, c', 0)
  | (none, c') => (probe, c'.insert key probe now, 1)

/-- The classification contract of claim C1 for one `run` call of
src/tools/status_check.rs: the result is `Failed` exactly when the
process-count guard trips (count > 50) or the spawn fails; otherwise it
is `Error (errors + test_failures) warnings` iff the exit status is
non-zero or errors > 0 or test-failures > 0, else `Warning warnings` iff
warnings > 0, else `Success`. -/
def RunClassified (check : StatusCheck) (env : ToolsEnv) : Prop :=
  ∃ st invs, Tools.run check env = some (st, invs)
    ∧ (st.isFailed = true
        ↔ (guardTrips env = true ∨ ∃ e, env.spawn = Except.error e))
    ∧ (∀ out : ProcOutput, guardTrips env = false → env.spawn = Except.ok out →
        (st.isError = true
            ↔ (out.exitSuccess = false
                ∨ 0 < countErrors (combinedOutput out)
                ∨ 0 < Tools.testFailedOf check out))
        ∧ ((out.exitSuccess = false
              ∨ 0 < countErrors (combinedOutput out)
              ∨ 0 < Tools.testFailedOf check out) →
            st = CheckStatus.Error
                  (countErrors (combinedOutput out) + Tools.testFailedOf check out)
                  (countWarnings check.warning_patterns (combinedOutput out))
                  env.duration)
        ∧ (¬(out.exitSuccess = false
              ∨ 0 < countErrors (combinedOutput out)
              ∨ 0 < Tools.testFailedOf check out) →
            (st.isWarning = true
                ↔ 0 < countWarnings check.warning_patterns (combinedOutput out))
            ∧ (0 < countWarnings check.warning_patterns (combinedOutput out) →
                st = CheckStatus.Warning
                      (countWarnings check.warning_patterns (combinedOutput out))
                      env.duration)
            ∧ (countWarnings check.warning_patterns (combinedOutput out) = 0 →
                st = CheckStatus.Success 0 env.duration)))

/-! ### Basic state-map lemmas -/

theorem StateMap.insert_self (m : StateMap) (k : String) (v : Nat × CheckStatus × Nat) :
    (m.insert k v) k = some v := by
  simp [StateMap.insert]

theorem StateMap.insert_other (m : StateMap) (k k' : String) (v : Nat × CheckStatus × Nat)
    (h : k' ≠ k) : (m.insert k v) k' = m k' := by
  simp [StateMap.insert, h]

/-- No event changes the row stored for any name. -/
theorem stepEvent_row (m : StateMap) (e : StatusEvent) (t : Nat) (n : String) :
    rowOf ((stepEvent m e t).1) n = rowOf m n := by
  cases e with
  | CheckStarted name =>
    simp only [stepEvent, handle_check_started]
    cases h : m name with
    | none => rfl
    | some v =>
      obtain ⟨row, st, ts⟩ := v
      by_cases hn : n = name
      · subst hn
        simp [rowOf, StateMap.insert_self, h]
      · simp [rowOf, StateMap.insert_other _ _ _ _ hn]
  | CheckProgress name msg =>
    simp only [stepEvent, handle_check_progress]
    cases h : m name with
    | none => rfl
    | some v => rfl
  | CheckCompleted name status =>
    simp only [stepEvent, handle_check_completed]
    cases h : m name with
    | none => rfl
    | some v =>
      obtain ⟨row, st, ts⟩ := v
      by_cases hterm : status.isTerminal
      · by_cases hn : n = name
        · subst hn
          simp [hterm, rowOf, StateMap.insert_self, h]
        · simp [hterm, rowOf, StateMap.insert_other _ _ _ _ hn]
      · simp [hterm]
  | AllCompleted => rfl

/-- No event adds a key to the state map (inserts only hit existing
keys). -/
theorem stepEvent_dom (m : StateMap) (e : StatusEvent) (t : Nat) (n : String) :
    (((stepEvent m e t).1) n).isSome = (m n).isSome := by
  have h := stepEvent_row m e t n
  simp only [rowOf] at h
  cases h1 : ((stepEvent m e t).1) n <;> cases h2 : m n <;>
    simp [h1, h2] at h ⊢

/-- Every redraw performed by an event targets the row currently stored
for the drawn name. -/
theorem stepEvent_draws (m : StateMap) (e : StatusEvent) (t : Nat)
    (p : String × Nat) (hp : p ∈ (stepEvent m e t).2) :
    rowOf m p.1 = some p.2 := by
  cases e with
  | CheckStarted name =>
    simp only [stepEvent, handle_check_started] at hp
    cases h : m name with
    | none => simp [h] at hp
    | some v =>
      obtain ⟨row, st, ts⟩ := v
      simp [h] at hp
      subst hp
      simp [rowOf, h]
  | CheckProgress name msg =>
    simp only [stepEvent, handle_check_progress] at hp
    cases h : m name with
    | none => simp [h] at hp
    | some v =>
      obtain ⟨row, st, ts⟩ := v
      simp [h] at hp
      subst hp
      simp [rowOf, h]
  | CheckCompleted name status =>
    simp only [stepEvent, handle_check_completed] at hp
    cases h : m name with
    | none => simp [h] at hp
    | some v =>
      obtain ⟨row, st, ts⟩ := v
      by_cases hterm : status.isTerminal
      · simp [h, hterm] at hp
        subst hp
        simp [rowOf, h]
      · simp [h, hterm] at hp
  | AllCompleted => simp [stepEvent] at hp

/-- Once a stored status is terminal, any event other than a repeated
`CheckStarted` for that name leaves it terminal. -/
theorem stepEvent_terminal (m : StateMap) (e : StatusEvent) (t : Nat) (n : String)
    (hterm : terminalAt m n = true) (hne : e ≠ StatusEvent.CheckStarted n) :
    terminalAt ((stepEvent m e t).1) n = true := by
  cases e with
  | CheckStarted name =>
    have hn : n ≠ name := by
      intro hEq
      exact hne (by rw [hEq])
    simp only [stepEvent, handle_check_started]
    cases h : m name with
    | none => exact hterm
    | some v =>
      obtain ⟨row, st, ts⟩ := v
      simpa [terminalAt, StateMap.insert_other _ _ _ _ hn] using hterm
  | CheckProgress name msg =>
    simp only [stepEvent, handle_check_progress]
    cases h : m name with
    | none => exact hterm
    | some v => exact hterm
  | CheckCompleted name status =>
    simp only [stepEvent, handle_check_completed]
    cases h : m name with
    | none => exact hterm
    | some v =>
      obtain ⟨row, st, ts⟩ := v
      by_cases hT : status.isTerminal
      · by_cases hn : n = name
        · subst hn
          simp [hT, terminalAt, StateMap.insert_self]
        · simpa [hT, terminalAt, StateMap.insert_other _ _ _ _ hn] using hterm
      · simpa [hT] using hterm
  | AllCompleted => exact hterm

/-- Keys absent from the map stay absent across a whole event sequence. -/
theorem runEventsTrace_dom (es : List (StatusEvent × Nat)) (m : StateMap) (n : String) :
    (((runEventsTrace m es).1) n).isSome = (m n).isSome := by
  induction es generalizing m with
  | nil => rfl
  | cons p rest ih =>
    obtain ⟨e, t⟩ := p
    simpa only [runEventsTrace] using
      (ih (stepEvent m e t).1).trans (stepEvent_dom m e t n)

/-- Rows are invariant across a whole event sequence. -/
theorem runEventsTrace_row (es : List (StatusEvent × Nat)) (m : StateMap) (n : String) :
    rowOf ((runEventsTrace m es).1) n = rowOf m n := by
  induction es generalizing m with
  | nil => rfl
  | cons p rest ih =>
    obtain ⟨e, t⟩ := p
    simpa only [runEventsTrace] using
      (ih (stepEvent m e t).1).trans (stepEvent_row m e t n)

/-- Every redraw in the trace of an event sequence targets the row the
initial map stores for the drawn name. -/
theorem runEventsTrace_draws (es : List (StatusEvent × Nat)) (m : StateMap)
    (p : String × Nat) (hp : p ∈ (runEventsTrace m es).2) :
    rowOf m p.1 = some p.2 := by
  induction es generalizing m with
  | nil => simp [runEventsTrace] at hp
  | cons q rest ih =>
    obtain ⟨e, t⟩ := q
    simp only [runEventsTrace, List.mem_append] at hp
    cases hp with
    | inl h => exact stepEvent_draws m e t p h
    | inr h =>
      have := ih (stepEvent m e t).1 h
      rwa [stepEvent_row] at this

/-- A name outside `names` is untouched by the initialization loop. -/
theorem initFrom_not_mem (names : List String) (states : StateMap) (i now : Nat)
    (n : String) (hn : n ∉ names) : initFrom states names i now n = states n := by
  induction names generalizing states i with
  | nil => rfl
  | cons hd rest ih =>
    simp only [List.mem_cons, not_or] at hn
    simp only [initFrom]
    rw [ih _ _ hn.2, StateMap.insert_other _ _ _ _ hn.1]

/-- The initialization loop assigns row `2 + i + j` to the `j`-th of the
remaining names (when the names are distinct). -/
theorem initFrom_get (names : List String) (states : StateMap) (i now : Nat)
    (hnd : names.Nodup) (j : Nat) (hj : j < names.length) :
    initFrom states names i now (names.get ⟨j, hj⟩) =
      some (2 + i + j, CheckStatus.Pending, now) := by
  induction names generalizing states i j with
  | nil => exact absurd hj (Nat.not_lt_zero j)
  | cons hd rest ih =>
    rw [List.nodup_cons] at hnd
    cases j with
    | zero =>
      show initFrom (states.insert hd _) rest (i + 1) now hd = _
      rw [initFrom_not_mem rest _ _ _ _ hnd.1, StateMap.insert_self]
      simp
    | succ j' =>
      show initFrom (states.insert hd _) rest (i + 1) now
          (rest.get ⟨j', Nat.lt_of_succ_lt_succ hj⟩) = _
      rw [ih _ _ hnd.2 j' (Nat.lt_of_succ_lt_succ hj)]
      congr 2
      omega

/-! ### Claims C4, C7, C9 -/

/-- C4 — counterexample.  The claim says that once a check's stored
status is terminal, no subsequent event ever makes it Running or Pending
again, for **every** event sequence.  `handle_check_started`
(src/display.rs 313-331) however overwrites the entry of any known name
with `Running` unconditionally: after `CheckStarted "a"`,
`CheckCompleted "a" Success` (stored status terminal `Success`), a second
`CheckStarted "a"` drives the stored status back to `Running`. -/
theorem c4_counterexample :
    (runEventsTrace (initDisplay ["a"] 0)
      [(StatusEvent.CheckStarted "a", 1),
       (StatusEvent.CheckCompleted "a" (CheckStatus.Success 0 5), 2)]).1 "a"
      = some (2, CheckStatus.Success 0 5, 1)
    ∧ (runEventsTrace (initDisplay ["a"] 0)
      [(StatusEvent.CheckStarted "a", 1),
       (StatusEvent.CheckCompleted "a" (CheckStatus.Success 0 5), 2),
       (StatusEvent.CheckStarted "a", 3)]).1 "a"
      = some (2, CheckStatus.Running 3, 3) := by
  constructor <;> rfl

/-- C4 — amended: once a check's stored `CheckStatus` is terminal, no
subsequent `CheckProgress`, `CheckCompleted` or `AllCompleted` event (nor
a `CheckStarted` for a *different* name) ever makes that check's stored
status Running or Pending again; only a repeated `CheckStarted` for the
same name can reset it to Running. -/
theorem c4_terminal_stays (m : StateMap) (es : List (StatusEvent × Nat)) (n : String)
    (hterm : terminalAt m n = true)
    (hno : ∀ p ∈ es, p.1 ≠ StatusEvent.CheckStarted n) :
    terminalAt ((runEventsTrace m es).1) n = true := by
  induction es generalizing m with
  | nil => exact hterm
  | cons q rest ih =>
    obtain ⟨e, t⟩ := q
    have h1 : e ≠ StatusEvent.CheckStarted n := hno (e, t) (List.mem_cons_self _ _)
    exact ih _ (stepEvent_terminal m e t n hterm h1)
      (fun p hp => hno p (List.mem_cons_of_mem _ hp))

/-- Witness for `c4_terminal_stays` at a concrete state and event
sequence. -/
theorem c4_terminal_stays_witness :
    terminalAt ((runEventsTrace
      ((fun k => if k = "a" then some (2, CheckStatus.Success 1 3, 0) else none) : StateMap)
      [(StatusEvent.CheckProgress "a" "executing...", 1),
       (StatusEvent.CheckCompleted "a" (CheckStatus.Error 1 0 2), 2),
       (StatusEvent.AllCompleted, 3)]).1) "a" = true :=
  c4_terminal_stays _ _ "a" (by decide) (by decide)

/-- C7: initialization with pairwise-distinct names assigns the `i`-th
name the fixed row `2 + i` (argument order, below the two-line header),
and that row assignment is invariant under any subsequent sequence of
status events; moreover every row redraw performed while processing those
events targets exactly the row assigned at initialization to the drawn
name. -/
theorem c7_row_assignment (names : List String) (t0 : Nat) (hnd : names.Nodup) :
    (∀ (i : Nat) (h : i < names.length),
        initDisplay names t0 (names.get ⟨i, h⟩)
          = some (2 + i, CheckStatus.Pending, t0))
    ∧ (∀ (es : List (StatusEvent × Nat)) (n : String),
        rowOf ((runEventsTrace (initDisplay names t0) es).1) n
          = rowOf (initDisplay names t0) n)
    ∧ (∀ (es : List (StatusEvent × Nat)) (p : String × Nat),
        p ∈ (runEventsTrace (initDisplay names t0) es).2 →
          rowOf (initDisplay names t0) p.1 = some p.2) := by
  refine ⟨?_, ?_, ?_⟩
  · intro i h
    simpa [initDisplay] using initFrom_get names StateMap.empty 0 t0 hnd i h
  · intro es n
    exact runEventsTrace_row es _ n
  · intro es p hp
    exact runEventsTrace_draws es _ p hp

/-- Witness for `c7_row_assignment` with names `["a","b","c"]`. -/
theorem c7_row_assignment_witness :
    initDisplay ["a", "b", "c"] 0 (["a", "b", "c"].get ⟨1, by decide⟩)
      = some (2 + 1, CheckStatus.Pending, 0)
    ∧ rowOf ((runEventsTrace (initDisplay ["a", "b", "c"] 0)
        [(StatusEvent.CheckStarted "c", 1),
         (StatusEvent.CheckCompleted "c" (CheckStatus.Warning 2 7), 2)]).1) "c"
      = rowOf (initDisplay ["a", "b", "c"] 0) "c" :=
  ⟨(c7_row_assignment ["a", "b", "c"] 0 (by decide)).1 1 (by decide),
   (c7_row_assignment ["a", "b", "c"] 0 (by decide)).2.1 _ "c"⟩

/-- C9: an event addressing a name unknown to the state map leaves the
map unchanged and performs no redraw, and the key set of the state map
never grows across any event sequence. -/
theorem c9_unknown_names_ignored :
    (∀ (m : StateMap) (e : StatusEvent) (t : Nat) (n : String),
        eventName? e = some n → m n = none → stepEvent m e t = (m, []))
    ∧ (∀ (m : StateMap) (es : List (StatusEvent × Nat)) (k : String),
        (((runEventsTrace m es).1) k).isSome = true → (m k).isSome = true) := by
  constructor
  · intro m e t n hname hnone
    cases e with
    | CheckStarted name =>
      simp only [eventName?, Option.some.injEq] at hname
      subst hname
      simp [stepEvent, handle_check_started, hnone]
    | CheckProgress name msg =>
      simp only [eventName?, Option.some.injEq] at hname
      subst hname
      simp [stepEvent, handle_check_progress, hnone]
    | CheckCompleted name status =>
      simp only [eventName?, Option.some.injEq] at hname
      subst hname
      simp [stepEvent, handle_check_completed, hnone]
    | AllCompleted => simp [eventName?] at hname
  · intro m es k h
    rw [runEventsTrace_dom es m k] at h
    exact h

/-- Witness for `c9_unknown_names_ignored`: an event for the unknown name
`"b"` is ignored, and a key absent initially is absent after a run. -/
theorem c9_unknown_names_ignored_witness :
    stepEvent ((fun k => if k = "a" then some (2, CheckStatus.Pending, 0) else none) : StateMap)
        (StatusEvent.CheckStarted "b") 1
      = (((fun k => if k = "a" then some (2, CheckStatus.Pending, 0) else none) : StateMap), [])
    ∧ ((((fun k => if k = "a" then some (2, CheckStatus.Pending, 0) else none) : StateMap) "a").isSome
        = true) :=
  ⟨c9_unknown_names_ignored.1 _ (StatusEvent.CheckStarted "b") 1 "b" (by decide) (by decide),
   c9_unknown_names_ignored.2
     ((fun k => if k = "a" then some (2, CheckStatus.Pending, 0) else none) : StateMap)
     [(StatusEvent.CheckStarted "a", 1),
      (StatusEvent.CheckCompleted "a" (CheckStatus.Success 0 2), 2)] "a" (by decide)⟩

/-! ### Classification lemmas -/

theorem classify_isFailed (success : Bool) (errors warnings test_failed d : Nat) :
    (classify success errors warnings test_failed d).isFailed = false := by
  unfold classify
  split
  · rfl
  · split <;> rfl

theorem classify_pos (success : Bool) (errors warnings test_failed d : Nat)
    (h : success = false ∨ 0 < errors ∨ 0 < test_failed) :
    classify success errors warnings test_failed d
      = CheckStatus.Error (errors + test_failed) warnings d := by
  unfold classify
  rw [if_pos h]

theorem classify_neg_warn (success : Bool) (errors warnings test_failed d : Nat)
    (h : ¬(success = false ∨ 0 < errors ∨ 0 < test_failed)) (hw : 0 < warnings) :
    classify success errors warnings test_failed d = CheckStatus.Warning warnings d := by
  unfold classify
  rw [if_neg h, if_pos hw]

theorem classify_neg_succ (success : Bool) (errors warnings test_failed d : Nat)
    (h : ¬(success = false ∨ 0 < errors ∨ 0 < test_failed)) (hw : warnings = 0) :
    classify success errors warnings test_failed d = CheckStatus.Success 0 d := by
  unfold classify
  rw [if_neg h, if_neg (by omega)]

theorem classify_isError_iff (success : Bool) (errors warnings test_failed d : Nat) :
    (classify success errors warnings test_failed d).isError = true
      ↔ (success = false ∨ 0 < errors ∨ 0 < test_failed) := by
  by_cases h : success = false ∨ 0 < errors ∨ 0 < test_failed
  · rw [classify_pos _ _ _ _ _ h]
    simp [CheckStatus.isError, h]
  · unfold classify
    rw [if_neg h]
    constructor
    · intro hE
      by_cases hw : 0 < warnings <;>
        simp [hw, CheckStatus.isError] at hE
    · intro hc
      exact absurd hc h

theorem classify_isWarning_iff (success : Bool) (errors warnings test_failed d : Nat)
    (h : ¬(success = false ∨ 0 < errors ∨ 0 < test_failed)) :
    (classify success errors warnings test_failed d).isWarning = true ↔ 0 < warnings := by
  unfold classify
  rw [if_neg h]
  by_cases hw : 0 < warnings <;> simp [hw, CheckStatus.isWarning]

/-! ### Claims C1, C10, C8 -/

/-- C1: every `StatusCheck::run` call (src/tools/status_check.rs) with a
non-empty command vector satisfies the claimed classification: `Failed`
exactly on guard trip (more than 50 running cargo processes) or spawn
failure; otherwise `Error{errors+test_failures, warnings}` iff non-zero
exit or errors > 0 or test-failures > 0; else `Warning{warnings}` iff
warnings > 0; else `Success`. -/
theorem c1_run_classification (check : StatusCheck) (env : ToolsEnv)
    (hcmd : check.command ≠ []) : RunClassified check env := by
  obtain ⟨prog, rest, hpc⟩ : ∃ p r, check.command = p :: r := by
    cases hc : check.command with
    | nil => exact absurd hc hcmd
    | cons p r => exact ⟨p, r, rfl⟩
  by_cases hg : guardTrips env = true
  · refine ⟨CheckStatus.Failed
        ("Too many cargo processes detected (" ++ toString (env.cargoCount.getD 0)
          ++ "), aborting to prevent system overload") env.duration, [], ?_, ?_, ?_⟩
    · simp [Tools.run, hpc, hg]
    · simp [CheckStatus.isFailed, hg]
    · intro out hg' _
      rw [hg] at hg'
      cases hg'
  · rw [Bool.not_eq_true] at hg
    cases hs : env.spawn with
    | error e =>
      refine ⟨CheckStatus.Failed ("Failed to run command: " ++ e) env.duration,
          [], ?_, ?_, ?_⟩
      · simp [Tools.run, hpc, hg, hs]
      · simp only [CheckStatus.isFailed, hg, hs]
        simp
      · intro out _ hsp
        rw [hs] at hsp
        cases hsp
    | ok out =>
      refine ⟨classify out.exitSuccess (countErrors (combinedOutput out))
          (countWarnings check.warning_patterns (combinedOutput out))
          (Tools.testFailedOf check out) env.duration,
          [⟨prog, buildArgs (!check.verbose) check.command, true⟩], ?_, ?_, ?_⟩
      · simp [Tools.run, hpc, hg, hs]
      · simp [classify_isFailed, hg, hs]
      · intro out' hg' hsp
        rw [hs] at hsp
        injection hsp with hEq
        subst hEq
        refine ⟨classify_isError_iff _ _ _ _ _, ?_, ?_⟩
        · intro h
          exact classify_pos _ _ _ _ _ h
        · intro h
          exact ⟨classify_isWarning_iff _ _ _ _ _ h,
                 fun hw => classify_neg_warn _ _ _ _ _ h hw,
                 fun hw => classify_neg_succ _ _ _ _ _ h hw⟩

/-- Witness for `c1_run_classification`: a concrete quiet `cargo check`
whose captured output holds one warning marker. -/
theorem c1_run_classification_witness :
    RunClassified ⟨"Check", ["cargo", "check"], ["warning"], false⟩
      ⟨some 2, Except.ok ⟨true, "warning: unused variable\n", ""⟩, 9⟩ :=
  c1_run_classification _ _ (by decide)

/-- C10: both `StatusCheck::run` implementations index `command[0]`
without a guard: they are total (return a result) for every non-empty
command vector, and the empty command vector makes them undefined
(modelled as `none` for the Rust panic). -/
theorem c10_command_indexing :
    (∀ (check : StatusCheck) (env : ToolsEnv),
        check.command ≠ [] → (Tools.run check env).isSome = true)
    ∧ (∀ (check : StatusCheck) (env : MainEnv),
        check.command ≠ [] → (MainBin.run check env).isSome = true)
    ∧ (∀ (name : String) (wp : List String) (vb : Bool) (env : ToolsEnv),
        Tools.run ⟨name, [], wp, vb⟩ env = none)
    ∧ (∀ (name : String) (wp : List String) (vb : Bool) (env : MainEnv),
        MainBin.run ⟨name, [], wp, vb⟩ env = none) := by
  refine ⟨?_, ?_, ?_, ?_⟩
  · intro check env h
    cases hc : check.command with
    | nil => exact absurd hc h
    | cons p r => simp [Tools.run, hc]
  · intro check env h
    cases hc : check.command with
    | nil => exact absurd hc h
    | cons p r => simp [MainBin.run, hc]
  · intro name wp vb env
    rfl
  · intro name wp vb env
    rfl

/-- Witness for `c10_command_indexing` at concrete checks. -/
theorem c10_command_indexing_witness :
    (Tools.run ⟨"Doc", ["cargo", "doc"], ["warning"], false⟩
        ⟨none, Except.ok ⟨true, "", ""⟩, 3⟩).isSome = true
    ∧ (MainBin.run ⟨"Doc", ["cargo", "doc"], ["warning"], false⟩
        ⟨Except.ok ⟨true, "", ""⟩, Except.ok ⟨true, "", ""⟩⟩).isSome = true :=
  ⟨c10_command_indexing.1 _ _ (by decide),
   c10_command_indexing.2.1 _ _ (by decide)⟩

/-- C8 — counterexample.  The claim says every verbose check connects
the child's streams to the parent terminal and then issues a second,
identical invocation, executing the command exactly twice.  The runner
in src/tools/status_check.rs (lines 141-160) does neither: it always
captures the output of a single execution (re-printing it afterwards
when verbose).  A concrete verbose `cargo check` there performs exactly
one invocation, and that invocation is captured, not passed through. -/
theorem c8_counterexample :
    Tools.run ⟨"Check", ["cargo", "check"], ["warning"], true⟩
        ⟨some 1, Except.ok ⟨true, "", ""⟩, 7⟩
      = some (CheckStatus.Success 0 7,
          [⟨"cargo", ["check", "--color=always"], true⟩])
    ∧ ∀ st invs,
        Tools.run ⟨"Check", ["cargo", "check"], ["warning"], true⟩
            ⟨some 1, Except.ok ⟨true, "", ""⟩, 7⟩
          = some (st, invs) → invs.length ≠ 2 := by
  have h1 : Tools.run ⟨"Check", ["cargo", "check"], ["warning"], true⟩
      ⟨some 1, Except.ok ⟨true, "", ""⟩, 7⟩
      = some (CheckStatus.Success 0 7,
          [⟨"cargo", ["check", "--color=always"], true⟩]) := by decide
  refine ⟨h1, ?_⟩
  intro st invs h
  rw [h1] at h
  injection h with h2
  cases h2
  decide

/-- C8 — amended: the runner in src/main.rs behaves as claimed — with
the verbose flag set (and both spawns succeeding) it executes the
command exactly twice, first with inherited stdio (terminal passthrough)
and then an identical captured invocation for metrics, and with the flag
unset exactly once, captured; the runner in src/tools/status_check.rs
instead always issues at most one invocation, and that invocation is
always captured. -/
theorem c8_amended_double_execution :
    (∀ (check : StatusCheck) (env : MainEnv) (out1 out2 : ProcOutput),
        check.command ≠ [] → check.verbose = true →
        env.spawn1 = Except.ok out1 → env.spawn2 = Except.ok out2 →
        ∃ res prog args,
          check.command.head? = some prog
          ∧ MainBin.run check env
              = some (res, [⟨prog, args, false⟩, ⟨prog, args, true⟩]))
    ∧ (∀ (check : StatusCheck) (env : MainEnv) (out : ProcOutput),
        check.command ≠ [] → check.verbose = false →
        env.spawn1 = Except.ok out →
        ∃ res prog args,
          MainBin.run check env = some (res, [⟨prog, args, true⟩]))
    ∧ (∀ (check : StatusCheck) (env : ToolsEnv) (st : CheckStatus)
          (invs : List Invocation),
        Tools.run check env = some (st, invs) →
          invs.length ≤ 1 ∧ ∀ inv ∈ invs, inv.capture = true) := by
  refine ⟨?_, ?_, ?_⟩
  · intro check env out1 out2 hcmd hv hs1 hs2
    obtain ⟨prog, rest, hpc⟩ : ∃ p r, check.command = p :: r := by
      cases hc : check.command with
      | nil => exact absurd hc hcmd
      | cons p r => exact ⟨p, r, rfl⟩
    refine ⟨MainBin.parse_output check (out2.stdout.data ++ out2.stderr.data)
        out1.exitSuccess, prog, buildArgs (!check.verbose) check.command, ?_, ?_⟩
    · rw [hpc]
      rfl
    · simp [MainBin.run, hpc, hv, hs1, hs2]
  · intro check env out hcmd hv hs1
    obtain ⟨prog, rest, hpc⟩ : ∃ p r, check.command = p :: r := by
      cases hc : check.command with
      | nil => exact absurd hc hcmd
      | cons p r => exact ⟨p, r, rfl⟩
    refine ⟨MainBin.parse_output check (out.stdout.data ++ out.stderr.data)
        out.exitSuccess, prog, buildArgs (!check.verbose) check.command, ?_⟩
    simp [MainBin.run, hpc, hv, hs1]
  · intro check env st invs h
    cases hc : check.command with
    | nil => simp [Tools.run, hc] at h
    | cons prog rest =>
      by_cases hg : guardTrips env = true
      · simp [Tools.run, hc, hg] at h
        obtain ⟨h1, h2⟩ := h
        subst h2
        simp
      · rw [Bool.not_eq_true] at hg
        cases hs : env.spawn with
        | error e =>
          simp [Tools.run, hc, hg, hs] at h
          obtain ⟨h1, h2⟩ := h
          subst h2
          simp
        | ok out =>
          simp [Tools.run, hc, hg, hs] at h
          obtain ⟨h1, h2⟩ := h
          subst h2
          simp [Invocation.capture]

/-- Witness for `c8_amended_double_execution`: a concrete verbose check
through the src/main.rs runner and a quiet one. -/
theorem c8_amended_double_execution_witness :
    (∃ res prog args,
      (["cargo", "build"] : List String).head? = some prog
      ∧ MainBin.run ⟨"Build", ["cargo", "build"], ["warning"], true⟩
          ⟨Except.ok ⟨true, "out", ""⟩, Except.ok ⟨true, "out", ""⟩⟩
          = some (res, [⟨prog, args, false⟩, ⟨prog, args, true⟩]))
    ∧ (∃ res prog args,
      MainBin.run ⟨"Build", ["cargo", "build"], ["warning"], false⟩
          ⟨Except.ok ⟨true, "out", ""⟩, Except.error "unused"⟩
          = some (res, [⟨prog, args, true⟩])) :=
  ⟨c8_amended_double_execution.1 ⟨"Build", ["cargo", "build"], ["warning"], true⟩
      ⟨Except.ok ⟨true, "out", ""⟩, Except.ok ⟨true, "out", ""⟩⟩
      ⟨true, "out", ""⟩ ⟨true, "out", ""⟩ (by decide) (by decide) rfl rfl,
   c8_amended_double_execution.2.1 ⟨"Build", ["cargo", "build"], ["warning"], false⟩
      ⟨Except.ok ⟨true, "out", ""⟩, Except.error "unused"⟩
      ⟨true, "out", ""⟩ (by decide) (by decide) rfl⟩

/-! ### Claim C2 -/

theorem countP_congr_on {α : Type} (l : List α) (p q : α → Bool)
    (h : ∀ a ∈ l, p a = q a) : l.countP p = l.countP q := by
  induction l with
  | nil => rfl
  | cons a rest ih =>
    simp only [List.countP_cons]
    rw [h a (List.mem_cons_self a rest),
        ih (fun b hb => h b (List.mem_cons_of_mem a hb))]

theorem exists_true_of_countP_pos {α : Type} (l : List α) (p : α → Bool)
    (h : 0 < l.countP p) : ∃ a ∈ l, p a = true := by
  induction l with
  | nil => simp [List.countP_nil] at h
  | cons a rest ih =>
    by_cases hp : p a = true
    · exact ⟨a, List.mem_cons_self a rest, hp⟩
    · simp only [List.countP_cons, if_neg hp, Nat.add_zero] at h
      obtain ⟨b, hb, hpb⟩ := ih h
      exact ⟨b, List.mem_cons_of_mem a hb, hpb⟩

/-- A failed exit status classifies as Error (or, unreachably here,
Failed). -/
theorem statusOfResult_of_fail (r : CheckResult) (d : Nat) (h : r.success = false) :
    (MainBin.statusOfResult r d).isErrorOrFailed = true := by
  unfold MainBin.statusOfResult
  rw [classify_pos _ _ _ _ _ (Or.inl h)]
  rfl

/-- A successful exit with no error markers and no test failures
classifies as Success or Warning. -/
theorem statusOfResult_of_ok (r : CheckResult) (d : Nat) (hs : r.success = true)
    (he : r.errors = 0) (htf : r.test_failed = 0) :
    (MainBin.statusOfResult r d).isErrorOrFailed = false
    ∧ (MainBin.statusOfResult r d).isSuccessOrWarning = true := by
  have hcond : ¬(r.success = false ∨ 0 < r.errors ∨ 0 < r.test_failed) := by
    simp [hs, he, htf]
  unfold MainBin.statusOfResult
  by_cases hw : 0 < r.warnings
  · rw [classify_neg_warn _ _ _ _ _ hcond hw]
    exact ⟨rfl, rfl⟩
  · rw [classify_neg_succ _ _ _ _ _ hcond (by omega)]
    exact ⟨rfl, rfl⟩

/-- C2 — counterexample.  The claim says aggregate success is true iff
every terminal status is `Success`.  `main` (src/main.rs 1096-1097)
aggregates the exit-status flag only: a single check that exited
successfully but printed one warning marker yields aggregate success
`true`, while its terminal status under the runner classification is
`Warning`, not `Success`. -/
theorem c2_counterexample :
    MainBin.all_successful none [⟨"Check", true, "warning: unused", 1, 0, 0, 0⟩] = true
    ∧ (MainBin.statusOfResult ⟨"Check", true, "warning: unused", 1, 0, 0, 0⟩ 0).isSuccess
        = false
    ∧ MainBin.statusOfResult ⟨"Check", true, "warning: unused", 1, 0, 0, 0⟩ 0
        = CheckStatus.Warning 1 0 := by
  exact ⟨by decide, by decide, by decide⟩

/-- C2 — amended: the Orchestrator's aggregate success is true iff every
check's exit-based success flag is true (`Warning` statuses — and even
`Error` statuses arising from error markers in output despite a zero
exit — still count as success); the process exit code is 0 iff aggregate
success holds; and for 3 results of which exactly one has a failed exit
while the successfully exiting ones carry no error markers and no test
failures, aggregate success is false, exactly one terminal status is
Error or Failed, and the others are Success or Warning. -/
theorem c2_amended_aggregate :
    (∀ (fmt_result : Option CheckResult) (results : List CheckResult),
        MainBin.all_successful fmt_result results = true
          ↔ ((∀ r, fmt_result = some r → r.success = true)
             ∧ ∀ r ∈ results, r.success = true))
    ∧ (∀ (fmt_result : Option CheckResult) (results : List CheckResult),
        MainBin.main_exit_code fmt_result results = 0
          ↔ MainBin.all_successful fmt_result results = true)
    ∧ (∀ (results : List CheckResult) (d : Nat),
        results.length = 3 →
        results.countP (fun r => !r.success) = 1 →
        (∀ r ∈ results, r.success = true → r.errors = 0 ∧ r.test_failed = 0) →
        MainBin.all_successful none results = false
        ∧ results.countP (fun r => (MainBin.statusOfResult r d).isErrorOrFailed) = 1
        ∧ ∀ r ∈ results, r.success = true →
            (MainBin.statusOfResult r d).isSuccessOrWarning = true) := by
  have hiff : ∀ (fmt_result : Option CheckResult) (results : List CheckResult),
      MainBin.all_successful fmt_result results = true
        ↔ ((∀ r, fmt_result = some r → r.success = true)
           ∧ ∀ r ∈ results, r.success = true) := by
    intro fmt results
    cases fmt with
    | none => simp [MainBin.all_successful, List.all_eq_true]
    | some r => simp [MainBin.all_successful, List.all_eq_true]
  refine ⟨hiff, ?_, ?_⟩
  · intro fmt results
    unfold MainBin.main_exit_code
    by_cases h : MainBin.all_successful fmt results = true <;> simp [h]
  · intro results d hlen hcount hside
    obtain ⟨r0, hr0, hr0s⟩ :=
      exists_true_of_countP_pos results (fun r => !r.success) (by omega)
    rw [Bool.not_eq_true'] at hr0s
    have hpoint : ∀ r ∈ results,
        ((MainBin.statusOfResult r d).isErrorOrFailed) = (!r.success) := by
      intro r hr
      cases hs : r.success with
      | false => rw [statusOfResult_of_fail r d hs]; rfl
      | true =>
        obtain ⟨he, htf⟩ := hside r hr hs
        rw [(statusOfResult_of_ok r d hs he htf).1]
        rfl
    refine ⟨?_, ?_, ?_⟩
    · rw [Bool.eq_false_iff]
      intro hall
      have := (hiff none results).mp hall
      have h2 := this.2 r0 hr0
      rw [h2] at hr0s
      cases hr0s
    · rw [countP_congr_on results _ (fun r => !r.success) hpoint]
      exact hcount
    · intro r hr hs
      obtain ⟨he, htf⟩ := hside r hr hs
      exact (statusOfResult_of_ok r d hs he htf).2

/-- Witness for `c2_amended_aggregate` at a concrete list of three
results: one failed exit, one clean success, one success with a
warning. -/
theorem c2_amended_aggregate_witness :
    MainBin.all_successful none
        [⟨"Check", true, "", 0, 0, 0, 0⟩,
         ⟨"Build", false, "", 0, 2, 0, 0⟩,
         ⟨"Doc", true, "", 1, 0, 0, 0⟩] = false
    ∧ ([⟨"Check", true, "", 0, 0, 0, 0⟩,
        ⟨"Build", false, "", 0, 2, 0, 0⟩,
        ⟨"Doc", true, "", 1, 0, 0, 0⟩] : List CheckResult).countP
          (fun r => (MainBin.statusOfResult r 5).isErrorOrFailed) = 1
    ∧ ∀ r ∈ ([⟨"Check", true, "", 0, 0, 0, 0⟩,
        ⟨"Build", false, "", 0, 2, 0, 0⟩,
        ⟨"Doc", true, "", 1, 0, 0, 0⟩] : List CheckResult), r.success = true →
          (MainBin.statusOfResult r 5).isSuccessOrWarning = true :=
  c2_amended_aggregate.2.2
    [⟨"Check", true, "", 0, 0, 0, 0⟩,
     ⟨"Build", false, "", 0, 2, 0, 0⟩,
     ⟨"Doc", true, "", 1, 0, 0, 0⟩] 5 (by decide) (by decide) (by decide)

/-! ### Claim C6 -/

/-- C6: the cache contract — insert-then-get within the TTL returns the
value; get after the TTL elapsed returns `none` and removes the entry;
prune keeps exactly the live entries (removing all and only the expired
ones); and `has_tool_cached` returns a live cached value without
invoking the probe (leaving the cache untouched), otherwise invokes the
probe exactly once, stores its result with a fresh timestamp and
returns it. -/
theorem c6_cache_ttl (T : Type) :
    (∀ (c : Cache T) (k : String) (v : T) (t now : Nat),
        now - t < c.ttl → (Cache.get (c.insert k v t) k now).1 = some v)
    ∧ (∀ (c : Cache T) (k : String) (v : T) (ts now : Nat),
        c.entries k = some (v, ts) → c.ttl ≤ now - ts →
          (Cache.get c k now).1 = none
          ∧ ((Cache.get c k now).2).entries k = none)
    ∧ (∀ (c : Cache T) (now : Nat) (k : String) (v : T) (ts : Nat),
        c.entries k = some (v, ts) →
          (c.prune now).entries k
            = if now - ts < c.ttl then some (v, ts) else none)
    ∧ (∀ (c : Cache T) (now : Nat) (k : String),
        c.entries k = none → (c.prune now).entries k = none)
    ∧ (∀ (c : Cache Bool) (tool : String) (probe : Bool) (now : Nat) (v : Bool),
        (Cache.get c ("tool_" ++ tool) now).1 = some v →
          has_tool_cached c tool probe now = (v, c, 0))
    ∧ (∀ (c : Cache Bool) (tool : String) (probe : Bool) (now : Nat),
        (Cache.get c ("tool_" ++ tool) now).1 = none →
          has_tool_cached c tool probe now
            = (probe,
               ((Cache.get c ("tool_" ++ tool) now).2).insert
                 ("tool_" ++ tool) probe now,
               1)
          ∧ ((has_tool_cached c tool probe now).2.1).entries ("tool_" ++ tool)
              = some (probe, now)) := by
  refine ⟨?_, ?_, ?_, ?_, ?_, ?_⟩
  · intro c k v t now h
    simp [Cache.get, Cache.insert, h]
  · intro c k v ts now hk hexp
    have hnl : ¬(now - ts < c.ttl) := by omega
    simp only [Cache.get, hk]
    rw [if_neg hnl]
    exact ⟨rfl, by simp⟩
  · intro c now k v ts hk
    simp [Cache.prune, hk]
  · intro c now k hk
    simp [Cache.prune, hk]
  · intro c tool probe now v h
    have h2 : Cache.get c ("tool_" ++ tool) now = (some v, c) := by
      cases hk : c.entries ("tool_" ++ tool) with
      | none => simp [Cache.get, hk] at h
      | some p =>
        obtain ⟨v', ts⟩ := p
        by_cases hl : now - ts < c.ttl
        · simp [Cache.get, hk, hl] at h
          subst h
          simp [Cache.get, hk, hl]
        · simp [Cache.get, hk, hl] at h
    simp only [has_tool_cached]
    rw [h2]
  · intro c tool probe now h
    have h2 : Cache.get c ("tool_" ++ tool) now
        = (none, (Cache.get c ("tool_" ++ tool) now).2) :=
      Prod.ext_iff.mpr ⟨h, rfl⟩
    have h3 : has_tool_cached c tool probe now
        = (probe,
           ((Cache.get c ("tool_" ++ tool) now).2).insert ("tool_" ++ tool) probe now,
           1) := by
      simp only [has_tool_cached]
      rw [h2]
    refine ⟨h3, ?_⟩
    rw [h3]
    simp [Cache.insert]

/-- Witness for `c6_cache_ttl` on a concrete Boolean cache with TTL
300. -/
theorem c6_cache_ttl_witness :
    (Cache.get ((Cache.new Bool 300).insert "k" true 10) "k" 20).1 = some true
    ∧ ((Cache.get ((Cache.new Bool 300).insert "k" true 0) "k" 400).1 = none
       ∧ ((Cache.get ((Cache.new Bool 300).insert "k" true 0) "k" 400).2).entries "k"
           = none)
    ∧ (((Cache.new Bool 300).insert "k" true 0).prune 400).entries "k"
        = (if 400 - 0 < ((Cache.new Bool 300).insert "k" true 0).ttl
           then some (true, 0) else none)
    ∧ ((Cache.new Bool 300).prune 400).entries "k" = none
    ∧ has_tool_cached ((Cache.new Bool 300).insert "tool_nextest" true 0) "nextest" false 10
        = (true, (Cache.new Bool 300).insert "tool_nextest" true 0, 0)
    ∧ (has_tool_cached (Cache.new Bool 300) "audit" true 7
        = (true,
           ((Cache.get (Cache.new Bool 300) "tool_audit" 7).2).insert "tool_audit" true 7,
           1)
       ∧ ((has_tool_cached (Cache.new Bool 300) "audit" true 7).2.1).entries "tool_audit"
           = some (true, 7)) :=
  ⟨(c6_cache_ttl Bool).1 (Cache.new Bool 300) "k" true 10 20 (by decide),
   (c6_cache_ttl Bool).2.1 ((Cache.new Bool 300).insert "k" true 0) "k" true 0 400
     (by decide) (by decide),
   (c6_cache_ttl Bool).2.2.1 ((Cache.new Bool 300).insert "k" true 0) 400 "k" true 0
     (by decide),
   (c6_cache_ttl Bool).2.2.2.1 (Cache.new Bool 300) 400 "k" (by decide),
   (c6_cache_ttl Bool).2.2.2.2.1 ((Cache.new Bool 300).insert "tool_nextest" true 0)
     "nextest" false 10 true (by decide),
   (c6_cache_ttl Bool).2.2.2.2.2 (Cache.new Bool 300) "audit" true 7 (by decide)⟩

/-! ### Claim C5 — ANSI stripping -/

/-- Unfolding lemma: a non-`ESC` head character is kept. -/
theorem stripAnsiGo_cons_ne (c : Char) (rest : List Char) (h : ¬ c = '\x1b') :
    stripAnsiGo false (c :: rest) = c :: stripAnsiGo false rest := by
  cases rest with
  | nil => rw [stripAnsiGo.eq_3, if_neg h]
  | cons d rest2 => rw [stripAnsiGo.eq_4, if_neg h]

/-- Unfolding lemma: the spec-side stripping keeps a non-`ESC` head. -/
theorem stripSpecGo_cons_ne (c : Char) (rest : List Char) (h : ¬ c = '\x1b') :
    stripSpecGo false (c :: rest) = c :: stripSpecGo false rest := by
  cases rest with
  | nil => rw [stripSpecGo.eq_3, if_neg h]
  | cons d rest2 => rw [stripSpecGo.eq_4, if_neg h]

/-- Unfolding lemma: well-formedness skips a non-`ESC` head. -/
theorem wfAnsiGo_cons_ne (c : Char) (rest : List Char) (h : ¬ c = '\x1b') :
    wfAnsiGo false (c :: rest) = wfAnsiGo false rest := by
  cases rest with
  | nil => rw [wfAnsiGo.eq_4, if_neg h]
  | cons d rest2 => rw [wfAnsiGo.eq_5, if_neg h]

/-- No `ESC` survives stripping (strong induction on the input length,
covering both scanning modes). -/
theorem stripAnsiGoNoEscAux (n : Nat) :
    ∀ (s : List Char), s.length ≤ n → ∀ (b : Bool), '\x1b' ∉ stripAnsiGo b s := by
  induction n with
  | zero =>
    intro s hs b
    have hnil : s = [] := List.eq_nil_of_length_eq_zero (Nat.le_zero.mp hs)
    subst hnil
    cases b <;> simp [stripAnsiGo]
  | succ n ih =>
    intro s hs b
    match s with
    | [] => cases b <;> simp [stripAnsiGo]
    | c :: rest =>
      have hrest : rest.length ≤ n := by
        simp only [List.length_cons] at hs
        omega
      cases b with
      | true =>
        by_cases h : c = 'm'
        · have e : stripAnsiGo true (c :: rest) = stripAnsiGo false rest := by
            simp only [stripAnsiGo]
            rw [if_pos h]
          rw [e]
          exact ih rest hrest false
        · have e : stripAnsiGo true (c :: rest) = stripAnsiGo true rest := by
            simp only [stripAnsiGo]
            rw [if_neg h]
          rw [e]
          exact ih rest hrest true
      | false =>
        by_cases h : c = '\x1b'
        · subst h
          match rest with
          | [] =>
            rw [show stripAnsiGo false ['\x1b'] = [] from rfl]
            exact List.not_mem_nil _
          | d :: rest2 =>
            have h2 : rest2.length ≤ n := by
              simp only [List.length_cons] at hs
              omega
            have e : stripAnsiGo false ('\x1b' :: d :: rest2)
                = if d = '[' then stripAnsiGo true rest2
                  else stripAnsiGo false rest2 := rfl
            by_cases hd : d = '['
            · rw [e, if_pos hd]
              exact ih rest2 h2 true
            · rw [e, if_neg hd]
              exact ih rest2 h2 false
        · rw [stripAnsiGo_cons_ne c rest h]
          intro hmem
          rcases List.mem_cons.mp hmem with hc | hm
          · exact h hc.symm
          · exact ih rest hrest false hm

/-- No `ESC` occurs in the output of `strip_ansi_escapes`. -/
theorem strip_ansi_no_esc (b : Bool) (s : List Char) : '\x1b' ∉ stripAnsiGo b s :=
  stripAnsiGoNoEscAux s.length s Nat.le.refl b

/-- Stripping is the identity on `ESC`-free input. -/
theorem stripAnsiGo_id_of_no_esc (s : List Char) (h : '\x1b' ∉ s) :
    stripAnsiGo false s = s := by
  induction s with
  | nil => rfl
  | cons c rest ih =>
    have hc : ¬ c = '\x1b' := by
      intro hc
      exact h (hc ▸ List.mem_cons_self c rest)
    rw [stripAnsiGo_cons_ne c rest hc,
        ih (fun hm => h (List.mem_cons_of_mem c hm))]

/-- `stripAnsiGo` agrees with the spec-side stripping on well-formed
input (strong induction on the length, both modes simultaneously). -/
theorem stripAnsiGoEqSpecAux (n : Nat) :
    ∀ (s : List Char), s.length ≤ n → ∀ (b : Bool),
      wfAnsiGo b s = true → stripAnsiGo b s = stripSpecGo b s := by
  induction n with
  | zero =>
    intro s hs b hwf
    have hnil : s = [] := List.eq_nil_of_length_eq_zero (Nat.le_zero.mp hs)
    subst hnil
    cases b <;> rfl
  | succ n ih =>
    intro s hs b hwf
    match s with
    | [] => cases b <;> rfl
    | c :: rest =>
      have hrest : rest.length ≤ n := by
        simp only [List.length_cons] at hs
        omega
      cases b with
      | true =>
        by_cases h : c = 'm'
        · have e1 : stripAnsiGo true (c :: rest) = stripAnsiGo false rest := by
            simp only [stripAnsiGo]
            rw [if_pos h]
          have e2 : stripSpecGo true (c :: rest) = stripSpecGo false rest := by
            simp only [stripSpecGo]
            rw [if_pos h]
          have e3 : wfAnsiGo true (c :: rest) = wfAnsiGo false rest := by
            simp only [wfAnsiGo]
            rw [if_pos h]
          rw [e1, e2]
          refine ih rest hrest false ?_
          rw [e3] at hwf
          exact hwf
        · have e1 : stripAnsiGo true (c :: rest) = stripAnsiGo true rest := by
            simp only [stripAnsiGo]
            rw [if_neg h]
          have e2 : stripSpecGo true (c :: rest) = stripSpecGo true rest := by
            simp only [stripSpecGo]
            rw [if_neg h]
          have e3 : wfAnsiGo true (c :: rest) = wfAnsiGo true rest := by
            simp only [wfAnsiGo]
            rw [if_neg h]
          rw [e1, e2]
          refine ih rest hrest true ?_
          rw [e3] at hwf
          exact hwf
      | false =>
        by_cases h : c = '\x1b'
        · subst h
          match rest with
          | [] => exact absurd hwf (by decide)
          | d :: rest2 =>
            by_cases hd : d = '['
            · subst hd
              have h2 : rest2.length ≤ n := by
                simp only [List.length_cons] at hs
                omega
              have hbeq : wfAnsiGo false ('\x1b' :: '[' :: rest2)
                  = (rest2.contains 'm' && wfAnsiGo true rest2) := rfl
              rw [hbeq, Bool.and_eq_true] at hwf
              have e1 : stripAnsiGo false ('\x1b' :: '[' :: rest2)
                  = stripAnsiGo true rest2 := rfl
              have e2 : stripSpecGo false ('\x1b' :: '[' :: rest2)
                  = stripSpecGo true rest2 := by
                have e : stripSpecGo false ('\x1b' :: '[' :: rest2)
                    = if rest2.contains 'm' then stripSpecGo true rest2
                      else '\x1b' :: '[' :: stripSpecGo false rest2 := rfl
                rw [e, if_pos hwf.1]
              rw [e1, e2]
              exact ih rest2 h2 true hwf.2
            · exfalso
              have hred : wfAnsiGo false ('\x1b' :: d :: rest2)
                  = if d = '[' then rest2.contains 'm' && wfAnsiGo true rest2
                    else false := rfl
              rw [hred, if_neg hd] at hwf
              cases hwf
        · rw [wfAnsiGo_cons_ne c rest h] at hwf
          rw [stripAnsiGo_cons_ne c rest h, stripSpecGo_cons_ne c rest h,
              ih rest hrest false hwf]

/-- C5 — counterexample.  The claim says stripping removes exactly the
`ESC [ ... m` sequences and leaves every other character untouched.  The
code (src/main.rs 608-629) also consumes the character *after* a lone
`ESC` even when it is not `[`: on the input `ESC A B`, which contains no
`ESC [ ... m` sequence at all, the code removes both the `ESC` and the
`A`, while the claimed behaviour (the spec-side `stripSpec`) leaves the
input untouched. -/
theorem c5_counterexample :
    strip_ansi_escapes "\x1bAB".data = "B".data
    ∧ stripSpec "\x1bAB".data = "\x1bAB".data
    ∧ strip_ansi_escapes "\x1bAB".data ≠ stripSpec "\x1bAB".data := by
  exact ⟨by decide, by decide, by decide⟩

/-- C5 — amended: on inputs in which every `ESC` opens a well-formed,
`m`-terminated `ESC [ ... m` sequence, stripping removes exactly those
sequences and leaves every other character untouched (it agrees with the
spec-side `stripSpec`); `"\x1b[32mGreen\x1b[0m"` maps to `"Green"`; and
stripping is idempotent on all inputs. -/
theorem c5_strip_ansi_amended :
    (∀ s : List Char, wfAnsi s = true → strip_ansi_escapes s = stripSpec s)
    ∧ strip_ansi_escapes "\x1b[32mGreen\x1b[0m".data = "Green".data
    ∧ (∀ s : List Char,
        strip_ansi_escapes (strip_ansi_escapes s) = strip_ansi_escapes s) := by
  refine ⟨?_, by decide, ?_⟩
  · intro s hwf
    exact stripAnsiGoEqSpecAux s.length s Nat.le.refl false hwf
  · intro s
    exact stripAnsiGo_id_of_no_esc _ (strip_ansi_no_esc false s)

/-- Witness for `c5_strip_ansi_amended` on a concrete well-formed
input. -/
theorem c5_strip_ansi_amended_witness :
    strip_ansi_escapes "\x1b[32mGreen\x1b[0m".data
      = stripSpec "\x1b[32mGreen\x1b[0m".data :=
  c5_strip_ansi_amended.1 "\x1b[32mGreen\x1b[0m".data (by decide)

/-! ### Claim C3 — the test-result parsers -/

/-- C3 (code-bug evidence).  The parser in src/tools/status_check.rs
extracts the full integers (12,0) and (8,3) from the two spec examples,
as the claim states.  The parser in src/main.rs — the one the binary
executes — takes `rfind(char::is_numeric)` before `" passed"` and parses
from that single rightmost digit, so on the first example it returns
(2,0) instead of (12,0); it happens to agree on single-digit counts,
which is all the repository's own tests exercise. -/
theorem c3_parse_test_results_examples :
    Tools.parse_test_results
        "test result: ok. 12 passed; 0 failed; 0 ignored; 0 measured; 0 filtered out".data
      = (12, 0)
    ∧ Tools.parse_test_results
        "test result: FAILED. 8 passed; 3 failed; 0 ignored; 0 measured; 0 filtered out".data
      = (8, 3)
    ∧ MainBin.parse_test_results
        "test result: ok. 12 passed; 0 failed; 0 ignored; 0 measured; 0 filtered out".data
      = (2, 0)
    ∧ MainBin.parse_test_results
        "test result: FAILED. 8 passed; 3 failed; 0 ignored; 0 measured; 0 filtered out".data
      = (8, 3)
    ∧ MainBin.parse_test_results "test result: ok. 5 passed; 2 failed; 1 ignored".data
      = (5, 2) := by
  refine ⟨?_, ?_, ?_, ?_, ?_⟩ <;> rfl

end CargoStatus
